import Mathlib

/-!
Verification of the JWST association constraint engine
(`jwst/associations/lib/constraint.py`, `jwst/associations/association.py`,
`jwst/associations/registry.py`) against its natural-language specification.

The Python code is shallowly embedded: pool items become association lists of
string key/value pairs, constraint objects become Lean structures, the mutating
`check_and_set` methods become pure functions returning the updated object, and
Python's `False`-on-failure convention becomes `Option`.
-/

namespace JwstAssoc

/-- A pool item: a string-keyed mapping from attribute names to string values
(`item: dict` throughout the source).  Modelled as an association list whose
lookup takes the first binding for a key, matching Python dict semantics for
the unique-key dictionaries the engine manipulates. -/
abbrev Item := List (String × String)

/-- Python `item[key]` / `key in item`: first binding wins. -/
def Item.get : Item → String → Option String
  | [], _ => none
  | (k, v) :: rest, a => if k = a then some v else Item.get rest a

/-- Python `item[key] = value`: replace the (first) binding for `key`,
appending a new binding when the key is absent. -/
def Item.set : Item → String → String → Item
  | [], k, v => [(k, v)]
  | (k', v') :: rest, k, v =>
      if k' = k then (k, v) :: rest else (k', v') :: Item.set rest k v

/-- The `ProcessList.(BOTH, EXISTING, RULES)` work-over states
(`association.py`, `class ProcessList`, where they are `range(1, 4)`). -/
inductive WorkOver where
  | both
  | existing
  | rules
deriving DecidableEq, Repr

/-- Modelled from the spec: `lib/process_list.py` is not under `src/`.
Spec §3 describes the ReprocessRequest as "item list, scope, optional target
rule subset"; `constraint.py` constructs it with keyword arguments `items`,
`work_over` (defaulting to BOTH), `rules` and `only_on_match`, so those are its
fields, with the defaults the call sites rely on. -/
structure ProcessList where
  items : List Item := []
  work_over : WorkOver := .both
  rules : List String := []
  only_on_match : Bool := false
deriving DecidableEq, Repr

/-- The `ProcessList` class defined inside `association.py` itself
(distinct from `lib/process_list.py`): `__init__(self, items, rules,
work_over=BOTH)`.  `Association.check_and_set_constraints` instantiates it
with `items` a one-element list holding a `lib` `ProcessList` and `rules`
holding `[type(self)]`; the rule class is modelled by its rule-name string. -/
structure AssnProcessList where
  items : List ProcessList
  rules : List String
  work_over : WorkOver := .both
deriving DecidableEq, Repr

/-- Modelled from the spec: `lib/utilities.py` is not under `src/`.
Spec §4.1 step 2 and §9: "Scan `sources` in order; take the first attribute
present and not in `invalid_values`" — an "explicit ordered list-of-keys
lookup against the Item mapping".  Returns `(attribute, value)`; the source's
`KeyError` when nothing is found becomes `none`. -/
def getattr_from_list (item : Item) (attributes : List String)
    (invalid_values : List String) : Option (String × String) :=
  match attributes with
  | [] => none
  | a :: rest =>
      match item.get a with
      | some v =>
          if v ∈ invalid_values then getattr_from_list item rest invalid_values
          else some (a, v)
      | none => getattr_from_list item rest invalid_values

/-- Splitting a character list at commas, accumulating the current segment
in reverse. -/
def splitOnComma : List Char → List Char → List (List Char)
  | [], acc => [acc.reverse]
  | ch :: rest, acc =>
      if ch = ',' then acc.reverse :: splitOnComma rest []
      else splitOnComma rest (ch :: acc)

/-- Trimming spaces from both ends of a character list. -/
def trimChars (l : List Char) : List Char :=
  ((l.dropWhile (· = ' ')).reverse.dropWhile (· = ' ')).reverse

/-- Modelled from the spec: `lib/utilities.py` (`evaluate` composed with
`is_iterable`) is not under `src/`.  Spec §4.1 step 4 speaks of "a delimited
multi-valued list": a bracketed, comma-delimited string denotes the list of
its trimmed elements (`some` values), and any other string evaluates to
itself (`none`, the non-iterable case, where the source's `str(evaled)` is
the string itself). -/
def evalMulti (s : String) : Option (List String) :=
  match s.data with
  | '[' :: rest =>
      if rest.getLast? = some ']' then
        some ((splitOnComma rest.dropLast []).map (fun l => String.mk (trimChars l)))
      else none
  | _ => none

/-- Model of Python's `re.escape` as used at `constraint.py:411`: every
character other than an ASCII letter, digit or underscore is preceded by a
backslash. -/
def reEscape (s : String) : String :=
  String.mk (s.data.flatMap fun c => if c.isAlphanum || c = '_' then [c] else ['\\', c])

/-- Matching a value against one pattern, the core of `meets_conditions`
(`constraint.py:635`): the pattern is wrapped in `^...$` and matched with
`re.match(..., flags=re.IGNORECASE)`, i.e. an anchored full match,
case-insensitively.  The regex engine itself is Python's `re`; it is modelled
here for the escaped-literal patterns the engine generates and the literal
patterns rules write: `\c` matches exactly the character `c`, and a plain
pattern character matches itself up to ASCII case. -/
def litMatch : List Char → List Char → Bool
  | [], [] => true
  | '\\' :: c :: ps, v :: vs => (c = v) && litMatch ps vs
  | '\\' :: _ :: _, [] => false
  | p :: ps, v :: vs => (p.toLower = v.toLower) && litMatch ps vs
  | _, _ => false

/-- `meets_conditions(value, condition)` for a single (non-iterable) string
condition: anchored, case-insensitive full match (`constraint.py:635-662`). -/
def meets_conditions (value condition : String) : Bool :=
  litMatch condition.data value.data

/-- `class AttrConstraint` (`constraint.py:249`): the configuration and
narrowing state.  `value` (the pattern) is `None` or a string — the callable
variant of `value` is not used by any claim and is not modelled;
`force_reprocess` is `False` or a `ProcessList` work-over state, modelled as
an `Option`; the `found_values` set is a duplicate-free list. -/
structure AttrConstraint where
  name : Option String := none
  value : Option String := none
  sources : List String := []
  evaluate : Bool := false
  force_reprocess : Option WorkOver := none
  force_undefined : Bool := false
  force_unique : Bool := true
  invalid_values : List String := []
  only_on_match : Bool := false
  onlyif : Item → Bool := fun _ => true
  required : Bool := true
  found_values : List String := []

/-- `AttrConstraint.check_and_set` (`constraint.py:337-419`).  The Python
method deep-copies itself into `match` and mutates only the copy; here the
returned constraint is that copy.  `False` becomes `none`. -/
def AttrConstraint.check_and_set (c : AttrConstraint) (item : Item) :
    Option AttrConstraint × List ProcessList :=
  -- Only perform check on specified `onlyif` condition
  if ¬ c.onlyif item then
    (some c,
      match c.force_reprocess with
      | some wo => [{ items := [item], work_over := wo, only_on_match := c.only_on_match }]
      | none => [])
  else
    -- Get the condition information.
    match getattr_from_list item c.sources c.invalid_values with
    | none =>
        if c.required && !c.force_undefined then (none, []) else (some c, [])
    | some (source, value) =>
        if c.force_undefined then (none, [])
        else
          -- If the value is a list, build the reprocess list
          match (if c.evaluate then evalMulti value else none) with
          | some evaled =>
              (none, [{ items := evaled.map fun avalue => item.set source avalue }])
          | none =>
              -- Check condition
              let passed := match c.value with
                | some pat => meets_conditions value pat
                | none => true
              if passed then
                -- At this point, the constraint has passed. Fix the conditions.
                let escaped_value := reEscape value
                let c' := { c with found_values := c.found_values.insert escaped_value }
                if c.force_unique then
                  (some { c' with
                            value := some escaped_value,
                            sources := [source],
                            force_unique := false }, [])
                else
                  (some c', [])
              else
                (none, [])

/-- `class SimpleConstraint` (`constraint.py:103`): `sources` is an
extraction function over the whole item (the source's `None` default is the
identity on the item; since our items are mappings and its values strings,
the extraction is typed `Item → String`), `test` a pluggable comparison
defaulting to equality (`SimpleConstraint.eq`). -/
structure SimpleConstraint where
  name : Option String := none
  value : Option String := none
  sources : Item → String
  force_unique : Bool := true
  test : String → String → Bool := fun a b => a = b
  force_reprocess : Option WorkOver := none

/-- `SimpleConstraint.check_and_set` (`constraint.py:212-242`). -/
def SimpleConstraint.check_and_set (c : SimpleConstraint) (item : Item) :
    Option SimpleConstraint × List ProcessList :=
  let source_value := c.sources item
  let satisfied := match c.value with
    | none => true
    | some v => c.test v source_value
  let matched : Option SimpleConstraint :=
    if satisfied then
      some (if c.force_unique then { c with value := some source_value } else c)
    else none
  let reprocess : List ProcessList :=
    match c.force_reprocess with
    | some wo => [{ items := [item], work_over := wo, rules := [] }]
    | none => []
  (matched, reprocess)

/-- The reduction mode of a `Constraint`: the source passes the bound methods
`Constraint.all` (the default) or `Constraint.any` as the `reduce` function. -/
inductive Reduce where
  | all
  | any
deriving DecidableEq, Repr

/-- The constraint tree: a `Constraint` (`constraint.py:422`) holds an ordered
list of children, each a `SimpleConstraint`, `AttrConstraint`,
`ConstraintTrue` or nested `Constraint`; plus its `reduce` function, optional
`name` and `work_over` scope. -/
inductive CTree where
  | simple (sc : SimpleConstraint)
  | attr (ac : AttrConstraint)
  | ctrue (name : Option String)
  | tree (name : Option String) (red : Reduce) (work_over : WorkOver)
      (constraints : List CTree)

/-- The loop of `Constraint.all` (`constraint.py:536-572`).  State carried
through the `for match, reprocess in results` loop: `all_match`,
`constraints`, `negative_reprocess` (the source stores `[reprocess]`; here
the reprocess list itself is stored and wrapped on exit) and `to_reprocess`.
The `break` on a failing result with empty reprocess is the early return,
which also resets `negative_reprocess` to `None`. -/
def allScan : List (Option CTree × List ProcessList) → Bool → List CTree →
    Option (List ProcessList) → List (List ProcessList) →
    Bool × List CTree × Option (List ProcessList) × List (List ProcessList)
  | [], all_match, constraints, negative_reprocess, to_reprocess =>
      (all_match, constraints, negative_reprocess, to_reprocess)
  | (m, reprocess) :: rest, all_match, constraints, negative_reprocess, to_reprocess =>
      match m with
      | some c =>
          allScan rest all_match
            (if all_match then constraints ++ [c] else constraints)
            negative_reprocess
            (if all_match then to_reprocess ++ [reprocess] else to_reprocess)
      | none =>
          if reprocess.length = 0 then
            (false, constraints, none, to_reprocess)
          else
            allScan rest false constraints
              (match negative_reprocess with
                | none => some reprocess
                | some r => some r)
              to_reprocess

/-- `Constraint.all` (`constraint.py:536-572`): positive only if all results
are positive.  The returned first component plays the role of the Python
`constraints` value: `none` is `False`, `some lst` the list of per-child
constraints (for `all`, every entry positive). -/
def Constraint.allReduce (results : List (Option CTree × List ProcessList)) :
    Option (List (Option CTree)) × List (List ProcessList) :=
  let s := allScan results true [] none []
  if s.1 then (some (s.2.1.map some), s.2.2.2)
  else
    (none,
      match s.2.2.1 with
      | some r => [r]
      | none => [])

/-- `Constraint.any` (`constraint.py:574-581`): `zip` the results, fail when
no child matched, and pass every child's reprocess list through.  On an empty
result list the source's tuple unpacking raises `ValueError`; that case
(unreachable for the non-empty rule trees the engine builds) is modelled as
the failure pair. -/
def Constraint.anyReduce (results : List (Option CTree × List ProcessList)) :
    Option (List (Option CTree)) × List (List ProcessList) :=
  let constraints := results.map Prod.fst
  let reprocess := results.map Prod.snd
  (if constraints.any Option.isSome then some constraints else none, reprocess)

/-- Dispatch on the configured `reduce` function. -/
def Reduce.apply : Reduce → List (Option CTree × List ProcessList) →
    Option (List (Option CTree)) × List (List ProcessList)
  | .all => Constraint.allReduce
  | .any => Constraint.anyReduce

/-- The replacement loop `for idx, constraint in enumerate(constraints): if
constraint: new_constraint.constraints[idx] = constraint`
(`constraint.py:529-532`): positive children replace the copies in
`Constraint(self)`, negative entries keep the old child. -/
def mergeConstraints (old : List CTree) (new : List (Option CTree)) : List CTree :=
  List.zipWith (fun o m => m.getD o) old new

/-- The post-reduction step of `Constraint.check_and_set`
(`constraint.py:525-534`): a truthy reduced `constraints` value — a non-empty
list — yields `Constraint(self)` with the positive children replaced
(`mergeConstraints`), the empty list and `False` yield `False`; the reprocess
lists are flattened by `list(chain(*reprocess))`. -/
def treeReduceResult (n : Option String) (red : Reduce) (w : WorkOver)
    (cs : List CTree)
    (reduced : Option (List (Option CTree)) × List (List ProcessList)) :
    Option CTree × List ProcessList :=
  (match reduced.1 with
   | some [] => none        -- Python: the empty list is falsy
   | some lst => some (.tree n red w (mergeConstraints cs lst))
   | none => none,
   reduced.2.flatten)

mutual

/-- `Constraint.check_and_set` (`constraint.py:508-534`) together with the
leaf dispatch.  The scope filter fails unless invoked with the configured
`work_over` or `BOTH`; children are invoked with the default `work_over=BOTH`. -/
def CTree.check_and_set : CTree → Item → WorkOver → Option CTree × List ProcessList
  | .simple sc, item, _ =>
      let r := sc.check_and_set item
      (r.1.map .simple, r.2)
  | .attr ac, item, _ =>
      let r := ac.check_and_set item
      (r.1.map .attr, r.2)
  | .ctrue n, _, _ => (some (.ctrue n), [])
  | .tree n red w cs, item, work_over =>
      if work_over = w ∨ work_over = .both then
        treeReduceResult n red w cs (red.apply (CTree.checkAndSetList cs item))
      else
        (none, [])

/-- The list comprehension `[constraint.check_and_set(item) for constraint in
self.constraints]` (`constraint.py:519-522`). -/
def CTree.checkAndSetList : List CTree → Item → List (Option CTree × List ProcessList)
  | [], _ => []
  | c :: cs, item => c.check_and_set item .both :: CTree.checkAndSetList cs item

end

mutual

/-- The leaf constraints of a tree in depth-first order (the flattening that
`Constraint.__iter__` performs, `constraint.py:583-586`). -/
def CTree.leaves : CTree → List CTree
  | .simple sc => [.simple sc]
  | .attr ac => [.attr ac]
  | .ctrue n => [.ctrue n]
  | .tree _ _ _ cs => CTree.leavesList cs

def CTree.leavesList : List CTree → List CTree
  | [] => []
  | c :: cs => c.leaves ++ CTree.leavesList cs

end

mutual

/-- `CTree.check_and_set` instrumented with a call trace: identical control
flow, additionally returning the list of leaf constraints whose
`check_and_set` was invoked, in invocation order. -/
def CTree.checkAndSetTr : CTree → Item → WorkOver →
    (Option CTree × List ProcessList) × List CTree
  | .simple sc, item, _ =>
      let r := sc.check_and_set item
      ((r.1.map .simple, r.2), [.simple sc])
  | .attr ac, item, _ =>
      let r := ac.check_and_set item
      ((r.1.map .attr, r.2), [.attr ac])
  | .ctrue n, _, _ => ((some (.ctrue n), []), [.ctrue n])
  | .tree n red w cs, item, work_over =>
      if work_over = w ∨ work_over = .both then
        let rt := CTree.checkAndSetListTr cs item
        (treeReduceResult n red w cs (red.apply rt.1), rt.2)
      else
        ((none, []), [])

/-- The traced form of `CTree.checkAndSetList`. -/
def CTree.checkAndSetListTr : List CTree → Item →
    List (Option CTree × List ProcessList) × List CTree
  | [], _ => ([], [])
  | c :: cs, item =>
      let r := c.checkAndSetTr item .both
      let rs := CTree.checkAndSetListTr cs item
      (r.1 :: rs.1, r.2 ++ rs.2)

end

/-- The `Association` state the claims concern (`association.py:95-120`): the
stored constraint tree `self.constraints`, the accumulated member data (the
member list the subclass `_add` maintains), and the `run_init_hook` flag.
`asn_rule` is the rule-class name (`Association.asn_rule`), used when
`check_and_set_constraints` tags reprocess entries with `[type(self)]`. -/
structure Assoc where
  asn_rule : String
  constraints : CTree
  members : List Item := []
  run_init_hook : Bool := true

/-- The subclass-supplied operations `Association` dispatches to:
`is_item_member`, `_init_hook` and `_add` (`association.py:422-447`;
`dms_base.py` implements `is_item_member` by comparing the made member
against the current members). -/
structure AssocOps where
  is_item_member : Assoc → Item → Bool
  init_hook : Assoc → Item → Assoc
  addMember : Assoc → Item → Assoc

/-- `Association.check_and_set_constraints` (`association.py:351-379`): run
the stored tree's `check_and_set` (with its default `work_over=BOTH`), on a
match replace the stored tree with the narrowed copy, and wrap each returned
reprocess entry in this module's own `ProcessList([reprocess_item],
[type(self)])`. -/
def Association.check_and_set_constraints (a : Assoc) (item : Item) :
    Option CTree × List AssnProcessList × Assoc :=
  let r := a.constraints.check_and_set item .both
  let a' := match r.1 with
    | some c => { a with constraints := c }
    | none => a
  (r.1, r.2.map (fun pl => { items := [pl], rules := [a.asn_rule] }), a')

/-- The exception `Association.add` escapes with when `check_constraints` is
false and the item is not yet a member: `matching_constraint` (and
`reprocess`) are read at `association.py:343` without ever having been
assigned, so Python raises `UnboundLocalError`. -/
inductive AddError where
  | unboundLocalMatchingConstraint
deriving DecidableEq, Repr

/-- `Association.add` (`association.py:317-349`): early `(False, [])` return
for an item that is already a member; otherwise run the constraint check (its
result is only bound when `check_constraints` is true), and on a match run
the init hook exactly once, clear the flag, and append the member. -/
def Association.add (ops : AssocOps) (a : Assoc) (item : Item)
    (check_constraints : Bool := true) :
    Except AddError (Option CTree × List AssnProcessList × Assoc) :=
  if ops.is_item_member a item then
    .ok (none, [], a)
  else if check_constraints then
    let r := Association.check_and_set_constraints a item
    match r.1 with
    | some c =>
        let a1 := r.2.2
        let a2 :=
          if a1.run_init_hook then
            { ops.init_hook a1 item with run_init_hook := false }
          else a1
        .ok (some c, r.2.1, ops.addMember a2 item)
    | none => .ok (none, r.2.1, r.2.2)
  else
    .error .unboundLocalMatchingConstraint

/-- `Association.create` (`association.py:122-147`): construct a fresh
association (the constructor's result is the `fresh` argument), attempt
`add(item)`, and on a failed top-level match return `(None, reprocess)`,
discarding the object. -/
def Association.create (ops : AssocOps) (fresh : Assoc) (item : Item) :
    Except AddError (Option Assoc × List AssnProcessList) :=
  match Association.add ops fresh item true with
  | .ok r => .ok ((if r.1.isSome then some r.2.2 else none), r.2.1)
  | .error e => .error e

/-- One driving-loop step against a single association: `add` with constraint
checking, keeping the association state after the call (the call cannot raise
when `check_constraints` is true). -/
def Association.addStep (ops : AssocOps) (a : Assoc) (item : Item) : Assoc :=
  match Association.add ops a item true with
  | .ok r => r.2.2
  | .error _ => a

/-- A rule prototype held by the registry (`registry.py`): rule classes are
compared by identity in the `allow`/`ignore` filters, modelled by a numeric
rule id; `create` is the rule's classmethod `Association.create`, abstracted
as a function from the item to the `(association-or-None, reprocess)` pair it
returns, with created associations identified by numbers (`version_id` plays
no role in the claims and is dropped). -/
structure RegRule where
  rid : Nat
  create : Item → Option Nat × List AssnProcessList

/-- The loop of `AssociationRegistry.match` (`registry.py:150-158`): for each
name/rule entry of the registry mapping, if the rule is not ignored and is
allowed, call `rule.create(item)`, extend the process list with the returned
reprocess entries and collect the created association if any. -/
def matchLoop (item : Item) (allow ignore : List Nat) :
    List (String × RegRule) → List Nat × List AssnProcessList
  | [] => ([], [])
  | (_, rule) :: rest =>
      if rule.rid ∉ ignore ∧ rule.rid ∈ allow then
        let r := rule.create item
        let rs := matchLoop item allow ignore rest
        ((match r.1 with
          | some a => a :: rs.1
          | none => rs.1), r.2 ++ rs.2)
      else matchLoop item allow ignore rest

/-- `if allow is None: allow = self.rule_set` (`registry.py:146-147`): the
effective allow filter, defaulting to the registry's full rule set. -/
def allowList (reg : List (String × RegRule)) : Option (List Nat) → List Nat
  | none => reg.map (fun p : String × RegRule => p.2.rid)
  | some a => a

/-- `if ignore is None: ignore = []` (`registry.py:148-149`). -/
def ignoreList : Option (List Nat) → List Nat
  | none => []
  | some ig => ig

/-- `AssociationRegistry.match` (`registry.py:117-158`): resolve the
`allow`/`ignore` defaults, then the loop over the name→rule mapping. -/
def AssociationRegistry.match (reg : List (String × RegRule)) (item : Item)
    (allow : Option (List Nat)) (ignore : Option (List Nat)) :
    List Nat × List AssnProcessList :=
  matchLoop item (allowList reg allow) (ignoreList ignore) reg

/-- The sub-list of registry rules that pass the `allow`/`ignore` filters —
exactly the rules whose `create` the match loop invokes, in registry order. -/
def matchAttempted (reg : List (String × RegRule))
    (allow : Option (List Nat)) (ignore : Option (List Nat)) : List Nat :=
  (reg.filter (fun p : String × RegRule =>
    p.2.rid ∉ ignoreList ignore ∧ p.2.rid ∈ allowList reg allow)).map
    (fun p => p.2.rid)

/-- Folding `create` over a list of rules: collect every created association
and concatenate every returned reprocess list, in order. -/
def collectCreates (item : Item) : List RegRule → List Nat × List AssnProcessList
  | [] => ([], [])
  | rule :: rest =>
      let r := rule.create item
      let rs := collectCreates item rest
      ((match r.1 with
        | some a => a :: rs.1
        | none => rs.1), r.2 ++ rs.2)

/-- One `AttrConstraint` narrowing step: the `found_values` set never
shrinks, and a constraint whose `force_unique` has already been consumed (the
locked state, `constraint.py:413-416` sets `force_unique = False` exactly
when it locks `value` and `sources`) keeps its `value`, `sources` and
`force_unique` unchanged. -/
def AttrNarrowed (old new : AttrConstraint) : Prop :=
  (∀ v ∈ old.found_values, v ∈ new.found_values) ∧
  (old.force_unique = false →
    new.value = old.value ∧ new.sources = old.sources ∧ new.force_unique = false)

/-- The narrowing relation between a constraint tree and the tree a
successful `check_and_set` returns: the shape, names, reductions and scopes
are preserved, and every attribute leaf takes an `AttrNarrowed` step. -/
inductive Narrowed : CTree → CTree → Prop where
  | simple (sc sc' : SimpleConstraint) : Narrowed (.simple sc) (.simple sc')
  | attr {ac ac' : AttrConstraint} :
      AttrNarrowed ac ac' → Narrowed (.attr ac) (.attr ac')
  | ctrue (n : Option String) : Narrowed (.ctrue n) (.ctrue n)
  | tree {cs cs' : List CTree} (n : Option String) (red : Reduce) (wo : WorkOver) :
      List.Forall₂ Narrowed cs cs' →
      Narrowed (.tree n red wo cs) (.tree n red wo cs')

/-! Concrete fixtures used by counterexamples and witnesses. -/

/-- A dms_base-style implementation of the subclass operations: membership by
member comparison, a trivial init hook, `_add` appending the member. -/
def memberOps : AssocOps where
  is_item_member := fun a item => a.members.contains item
  init_hook := fun a _ => a
  addMember := fun a item => { a with members := a.members ++ [item] }

/-- A pool item used by the concrete counterexamples and witnesses. -/
def exItem : Item := [("instrument", "nircam")]

/-- An `AttrConstraint` on a missing required attribute: fails with an empty
reprocess list on `exItem`. -/
def exFailEmpty : CTree := .attr { sources := ["filter"] }

/-- A `SimpleConstraint` that fails on `exItem` but carries `force_reprocess`,
so its failure comes with a non-empty reprocess list. -/
def exFailReproc : CTree :=
  .simple { value := some "a", sources := fun _ => "b", force_reprocess := some .both }

/-- An ALL-reduction tree whose first failing child has an empty reprocess
list while its second failing child carries a non-empty one. -/
def exAllTree : CTree := .tree none .all .both [exFailEmpty, exFailReproc]

/-- An `AttrConstraint` with an unset pattern and `force_unique=False`. -/
def exNoLock : AttrConstraint := { sources := ["instrument"], force_unique := false }

/-- An association whose tree requires the missing attribute `filter`:
`add exItem` fails. -/
def exFailAssoc : Assoc :=
  { asn_rule := "Asn_Demo", constraints := .tree none .all .both [exFailEmpty] }

/-- An association that accepts anything (global `ConstraintTrue` child
only). -/
def exTrueAssoc : Assoc :=
  { asn_rule := "Asn_Demo", constraints := .tree none .all .both [.ctrue none] }

/-- An association that already holds `exItem` as a member. -/
def exMemberAssoc : Assoc :=
  { asn_rule := "Asn_Demo", constraints := .tree none .all .both [.ctrue none],
    members := [exItem], run_init_hook := false }

/-- A two-rule registry fixture: rule 0 matches everything, rule 1 matches
nothing. -/
def exRuleA : RegRule := { rid := 0, create := fun _ => (some 0, []) }

/-- The second registry fixture rule. -/
def exRuleB : RegRule := { rid := 1, create := fun _ => (none, []) }

/-- The registry fixture mapping. -/
def exRegistry : List (String × RegRule) := [("A", exRuleA), ("B", exRuleB)]

/-! Helper lemmas. -/

theorem Item.get_set : ∀ (i : Item) (k v a : String),
    (i.set k v).get a = if a = k then some v else i.get a
  | [], k, v, a => by
      by_cases h : k = a
      · simp [Item.set, Item.get, h]
      · simp [Item.set, Item.get, h, Ne.symm h]
  | (k', v') :: tl, k, v, a => by
      by_cases hk : k' = k
      · subst hk
        by_cases h : k' = a
        · simp [Item.set, Item.get, h]
        · simp [Item.set, Item.get, h, Ne.symm h]
      · by_cases h : k' = a
        · subst h
          simp [Item.set, Item.get, hk, Ne.symm hk]
        · simp [Item.set, Item.get, hk, h, Item.get_set tl k v a]

theorem checkAndSetList_eq_map (cs : List CTree) (item : Item) :
    CTree.checkAndSetList cs item = cs.map (fun c => c.check_and_set item .both) := by
  induction cs with
  | nil => rfl
  | cons c cs ih => simp [CTree.checkAndSetList, ih]

mutual

theorem checkAndSetTr_fst : ∀ (t : CTree) (item : Item) (wo : WorkOver),
    (t.checkAndSetTr item wo).1 = t.check_and_set item wo
  | .simple _, _, _ => rfl
  | .attr _, _, _ => rfl
  | .ctrue _, _, _ => rfl
  | .tree n red w cs, item, wo => by
      by_cases h : wo = w ∨ wo = .both <;>
        simp [CTree.checkAndSetTr, CTree.check_and_set, h,
          checkAndSetListTr_fst cs item]

theorem checkAndSetListTr_fst : ∀ (cs : List CTree) (item : Item),
    (CTree.checkAndSetListTr cs item).1 = CTree.checkAndSetList cs item
  | [], _ => rfl
  | c :: cs, item => by
      simp only [CTree.checkAndSetListTr, CTree.checkAndSetList]
      rw [checkAndSetTr_fst c item .both, checkAndSetListTr_fst cs item]

end

mutual

theorem checkAndSetTr_trace_both : ∀ (t : CTree) (item : Item),
    (t.checkAndSetTr item .both).2 = t.leaves
  | .simple _, _ => rfl
  | .attr _, _ => rfl
  | .ctrue _, _ => rfl
  | .tree n red w cs, item => by
      simp [CTree.checkAndSetTr, CTree.leaves, checkAndSetListTr_trace cs item]

theorem checkAndSetListTr_trace : ∀ (cs : List CTree) (item : Item),
    (CTree.checkAndSetListTr cs item).2 = CTree.leavesList cs
  | [], _ => rfl
  | c :: cs, item => by
      simp only [CTree.checkAndSetListTr, CTree.leavesList]
      rw [checkAndSetTr_trace_both c item, checkAndSetListTr_trace cs item]

end

theorem allScan_of_false (rs : List (Option CTree × List ProcessList)) :
    ∀ (acc : List CTree) (neg : Option (List ProcessList))
      (rep : List (List ProcessList)),
    (allScan rs false acc neg rep).1 = false := by
  induction rs with
  | nil => intro acc neg rep; rfl
  | cons hd rest ih =>
      intro acc neg rep
      obtain ⟨m, r⟩ := hd
      cases m with
      | some c => simpa [allScan] using ih acc neg rep
      | none =>
          by_cases h : r.length = 0
          · simp [allScan, h]
          · simp only [allScan, if_neg h]
            exact ih acc _ rep

theorem allScan_success (rs : List (Option CTree × List ProcessList)) :
    ∀ (acc : List CTree) (neg : Option (List ProcessList))
      (rep : List (List ProcessList)),
    (allScan rs true acc neg rep).1 = true →
    ∃ ms, (allScan rs true acc neg rep).2.1 = acc ++ ms ∧
      List.Forall₂ (fun (rr : Option CTree × List ProcessList) c => rr.1 = some c)
        rs ms := by
  induction rs with
  | nil => intro acc neg rep _; exact ⟨[], by simp [allScan], .nil⟩
  | cons hd rest ih =>
      intro acc neg rep h
      obtain ⟨m, r⟩ := hd
      cases m with
      | some c =>
          have h' : (allScan rest true (acc ++ [c]) neg (rep ++ [r])).1 = true := by
            simpa [allScan] using h
          obtain ⟨ms, hms, hf⟩ := ih (acc ++ [c]) neg (rep ++ [r]) h'
          exact ⟨c :: ms, by simp [allScan, hms], .cons rfl hf⟩
      | none =>
          by_cases hr : r.length = 0
          · simp [allScan, hr] at h
          · simp only [allScan, if_neg hr] at h
            rw [allScan_of_false] at h
            cases h

theorem allScan_failEmpty (rs : List (Option CTree × List ProcessList)) :
    ∀ (am : Bool) (acc : List CTree) (neg : Option (List ProcessList))
      (rep : List (List ProcessList)),
    (∃ e ∈ rs, e.1 = none ∧ e.2 = []) →
    (allScan rs am acc neg rep).1 = false ∧
    (allScan rs am acc neg rep).2.2.1 = none := by
  induction rs with
  | nil => intro am acc neg rep h; simp at h
  | cons hd rest ih =>
      intro am acc neg rep h
      obtain ⟨m, r⟩ := hd
      cases m with
      | some c =>
          have h' : ∃ e ∈ rest, e.1 = none ∧ e.2 = [] := by
            obtain ⟨e, he, h1, h2⟩ := h
            rcases List.mem_cons.mp he with rfl | hmem
            · cases h1
            · exact ⟨e, hmem, h1, h2⟩
          simp only [allScan]
          exact ih am _ neg _ h'
      | none =>
          by_cases hr : r.length = 0
          · simp [allScan, hr]
          · have h' : ∃ e ∈ rest, e.1 = none ∧ e.2 = [] := by
              obtain ⟨e, he, h1, h2⟩ := h
              rcases List.mem_cons.mp he with rfl | hmem
              · exact absurd (by simp [show r = [] from h2]) hr
              · exact ⟨e, hmem, h1, h2⟩
            simp only [allScan, if_neg hr]
            exact ih false acc _ rep h'

theorem allScan_neg_some (rs : List (Option CTree × List ProcessList)) :
    ∀ (acc : List CTree) (r₀ : List ProcessList) (rep : List (List ProcessList)),
    (∀ e ∈ rs, e.1 = none → e.2 ≠ []) →
    (allScan rs false acc (some r₀) rep).1 = false ∧
    (allScan rs false acc (some r₀) rep).2.2.1 = some r₀ := by
  induction rs with
  | nil => intro acc r₀ rep _; exact ⟨rfl, rfl⟩
  | cons hd rest ih =>
      intro acc r₀ rep h
      obtain ⟨m, r⟩ := hd
      cases m with
      | some c =>
          simp only [allScan, if_neg (by simp : ¬ (false = true))]
          exact ih acc r₀ rep (fun e he => h e (List.mem_cons_of_mem _ he))
      | none =>
          have hr : r ≠ [] := h (none, r) (by simp) rfl
          have hr' : ¬ r.length = 0 := by simpa [List.length_eq_zero] using hr
          simp only [allScan, if_neg hr']
          exact ih acc r₀ rep (fun e he => h e (List.mem_cons_of_mem _ he))

theorem allScan_firstFail (rs : List (Option CTree × List ProcessList)) :
    ∀ (acc : List CTree) (rep : List (List ProcessList)),
    (∀ e ∈ rs, e.1 = none → e.2 ≠ []) →
    ∀ e₀, rs.find? (fun e => e.1.isNone) = some e₀ →
    (allScan rs true acc none rep).1 = false ∧
    (allScan rs true acc none rep).2.2.1 = some e₀.2 := by
  induction rs with
  | nil => intro acc rep _ e₀ hf; simp at hf
  | cons hd rest ih =>
      intro acc rep hne e₀ hf
      obtain ⟨m, r⟩ := hd
      cases m with
      | some c =>
          rw [List.find?_cons_of_neg _ (by simp)] at hf
          simp only [allScan, if_pos rfl]
          exact ih (acc ++ [c]) (rep ++ [r])
            (fun e he => hne e (List.mem_cons_of_mem _ he)) e₀ hf
      | none =>
          rw [List.find?_cons_of_pos _ (by simp)] at hf
          injection hf with hf
          subst hf
          have hr : r ≠ [] := hne (none, r) (by simp) rfl
          have hr' : ¬ r.length = 0 := by simpa [List.length_eq_zero] using hr
          simp only [allScan, if_neg hr']
          exact allScan_neg_some rest acc r rep
            (fun e he => hne e (List.mem_cons_of_mem _ he))

theorem allReduce_success {rs : List (Option CTree × List ProcessList)}
    {lst : List (Option CTree)} {rep : List (List ProcessList)}
    (h : Constraint.allReduce rs = (some lst, rep)) :
    ∃ ms, lst = ms.map some ∧
      List.Forall₂ (fun (rr : Option CTree × List ProcessList) c => rr.1 = some c)
        rs ms := by
  simp only [Constraint.allReduce] at h
  by_cases hs : (allScan rs true [] none []).1 = true
  · rw [if_pos hs] at h
    obtain ⟨ms, hms, hf⟩ := allScan_success rs [] none [] hs
    refine ⟨ms, ?_, hf⟩
    have h1 := congrArg Prod.fst h
    simp at h1
    rw [← h1, hms]
    simp
  · rw [if_neg hs] at h
    cases h

theorem allReduce_fail_first {rs : List (Option CTree × List ProcessList)}
    (hne : ∀ e ∈ rs, e.1 = none → e.2 ≠ [])
    {e₀ : Option CTree × List ProcessList}
    (hf : rs.find? (fun e => e.1.isNone) = some e₀) :
    Constraint.allReduce rs = (none, [e₀.2]) := by
  obtain ⟨h1, h2⟩ := allScan_firstFail rs [] [] hne e₀ hf
  simp only [Constraint.allReduce]
  rw [if_neg (by simp [h1]), h2]

theorem allReduce_fail_empty {rs : List (Option CTree × List ProcessList)}
    (h : ∃ e ∈ rs, e.1 = none ∧ e.2 = []) :
    Constraint.allReduce rs = (none, []) := by
  obtain ⟨h1, h2⟩ := allScan_failEmpty rs true [] none [] h
  simp only [Constraint.allReduce]
  rw [if_neg (by simp [h1]), h2]

mutual

theorem narrowed_refl : ∀ t : CTree, Narrowed t t
  | .simple sc => .simple sc sc
  | .attr _ => .attr ⟨fun _ hv => hv, fun h => ⟨rfl, rfl, h⟩⟩
  | .ctrue n => .ctrue n
  | .tree n red wo cs => .tree n red wo (narrowedList_refl cs)

theorem narrowedList_refl : ∀ cs : List CTree, List.Forall₂ Narrowed cs cs
  | [] => .nil
  | c :: cs => .cons (narrowed_refl c) (narrowedList_refl cs)

end

mutual

theorem narrowed_trans : ∀ (a b c : CTree), Narrowed a b → Narrowed b c → Narrowed a c
  | .simple _, _, _, h1, h2 => by
      cases h1; cases h2; exact .simple _ _
  | .attr _, _, _, h1, h2 => by
      cases h1 with
      | attr ha =>
          cases h2 with
          | attr hb =>
              refine .attr ⟨fun v hv => hb.1 v (ha.1 v hv), fun h => ?_⟩
              obtain ⟨hv, hs, hf⟩ := ha.2 h
              obtain ⟨hv', hs', hf'⟩ := hb.2 hf
              exact ⟨hv'.trans hv, hs'.trans hs, hf'⟩
  | .ctrue n, _, _, h1, h2 => by
      cases h1; cases h2; exact .ctrue n
  | .tree n red wo cs, _, _, h1, h2 => by
      cases h1 with
      | tree _ _ _ hcs =>
          cases h2 with
          | tree _ _ _ hcs' =>
              exact .tree n red wo (narrowedList_trans cs _ _ hcs hcs')

theorem narrowedList_trans : ∀ (as bs cs : List CTree),
    List.Forall₂ Narrowed as bs → List.Forall₂ Narrowed bs cs →
    List.Forall₂ Narrowed as cs
  | [], _, _, h1, h2 => by
      cases h1; cases h2; exact .nil
  | a :: as, _, _, h1, h2 => by
      cases h1 with
      | cons hab h1' =>
          cases h2 with
          | cons hbc h2' =>
              exact .cons (narrowed_trans a _ _ hab hbc) (narrowedList_trans as _ _ h1' h2')

end

theorem forall2_map_right {α β γ : Type _} {R : α → γ → Prop} (f : β → γ) :
    ∀ {as : List α} {bs : List β}, List.Forall₂ (fun a b => R a (f b)) as bs →
    List.Forall₂ R as (bs.map f)
  | _, _, .nil => .nil
  | _, _, .cons h hs => .cons h (forall2_map_right f hs)

theorem forall2_trans_comp {α β γ : Type _} {R : α → β → Prop} {S : β → γ → Prop}
    {T : α → γ → Prop} (h : ∀ a b c, R a b → S b c → T a c) :
    ∀ {as : List α} {bs : List β} {cs : List γ},
    List.Forall₂ R as bs → List.Forall₂ S bs cs → List.Forall₂ T as cs
  | _, _, _, .nil, .nil => .nil
  | _, _, _, .cons hr hrs, .cons hs hss =>
      .cons (h _ _ _ hr hs) (forall2_trans_comp h hrs hss)

theorem mergeConstraints_narrowed :
    ∀ {cs : List CTree} {lst : List (Option CTree)},
    List.Forall₂ (fun c (m : Option CTree) => ∀ c', m = some c' → Narrowed c c') cs lst →
    List.Forall₂ Narrowed cs (mergeConstraints cs lst)
  | _, _, .nil => .nil
  | c :: _, m :: _, .cons h hs => by
      refine .cons ?_ (mergeConstraints_narrowed hs)
      cases m with
      | some c' => exact h c' rfl
      | none => exact narrowed_refl c

theorem attrCheck_narrows {ac ac' : AttrConstraint} {item : Item}
    (h : (ac.check_and_set item).1 = some ac') : AttrNarrowed ac ac' := by
  simp only [AttrConstraint.check_and_set] at h
  split at h
  · -- onlyif false: the copy is returned unchanged
    simp only [Prod.fst] at h
    injection h with h
    subst h
    exact ⟨fun _ hv => hv, fun hf => ⟨rfl, rfl, hf⟩⟩
  · split at h
    · -- getattr_from_list found nothing
      split at h
      · cases h
      · injection h with h
        subst h
        exact ⟨fun _ hv => hv, fun hf => ⟨rfl, rfl, hf⟩⟩
    · -- a (source, value) pair was found
      split at h
      · cases h
      · split at h
        · cases h
        · -- non-iterable value; condition check
          split at h
          · -- the constraint passed
            rename_i hpassed
            split at h
            · -- force_unique: lock
              rename_i hfu
              injection h with h
              subst h
              refine ⟨fun v hv => ?_, fun hf => ?_⟩
              · simp [List.mem_insert_iff, hv]
              · rw [hf] at hfu
                cases hfu
            · -- no lock: only found_values grows
              rename_i hfu
              injection h with h
              subst h
              refine ⟨fun v hv => ?_, fun hf => ⟨rfl, rfl, ?_⟩⟩
              · simp [List.mem_insert_iff, hv]
              · simpa using hf
          · cases h

mutual

theorem CTree.check_narrows : ∀ (t : CTree) (item : Item) (wo : WorkOver)
    (t' : CTree) (r : List ProcessList),
    t.check_and_set item wo = (some t', r) → Narrowed t t'
  | .simple sc, item, wo, t', r, h => by
      simp only [CTree.check_and_set] at h
      rw [Prod.mk.injEq] at h
      obtain ⟨h1, _⟩ := h
      cases hm : (sc.check_and_set item).1 with
      | some sc' =>
          rw [hm] at h1
          simp only [Option.map_some'] at h1
          injection h1 with h1
          subst h1
          exact .simple sc sc'
      | none => rw [hm] at h1; cases h1
  | .attr ac, item, wo, t', r, h => by
      simp only [CTree.check_and_set] at h
      rw [Prod.mk.injEq] at h
      obtain ⟨h1, _⟩ := h
      cases hm : (ac.check_and_set item).1 with
      | some ac' =>
          rw [hm] at h1
          simp only [Option.map_some'] at h1
          injection h1 with h1
          subst h1
          exact .attr (attrCheck_narrows hm)
      | none => rw [hm] at h1; cases h1
  | .ctrue n, item, wo, t', r, h => by
      simp only [CTree.check_and_set] at h
      rw [Prod.mk.injEq] at h
      obtain ⟨h1, _⟩ := h
      injection h1 with h1
      subst h1
      exact .ctrue n
  | .tree n red w cs, item, wo, t', r, h => by
      simp only [CTree.check_and_set] at h
      split at h
      · simp only [treeReduceResult] at h
        rw [Prod.mk.injEq] at h
        obtain ⟨h1, _⟩ := h
        have hlist := CTree.checkList_narrows cs item
        cases red with
        | all =>
            cases hred : (Constraint.allReduce (CTree.checkAndSetList cs item)) with
            | mk oc orep =>
                rw [show Reduce.apply .all = Constraint.allReduce from rfl, hred] at h1
                cases oc with
                | none => cases h1
                | some lst =>
                    cases lst with
                    | nil => cases h1
                    | cons l0 ls =>
                        simp only at h1
                        injection h1 with h1
                        subst h1
                        obtain ⟨ms, hms, hf⟩ := allReduce_success hred
                        refine .tree n .all w (mergeConstraints_narrowed ?_)
                        rw [hms]
                        refine forall2_map_right some ?_
                        have hNar : List.Forall₂ Narrowed cs ms :=
                          forall2_trans_comp
                            (fun c rr mm hc hr => hc mm hr) hlist hf
                        exact hNar.imp fun a b hab c' hc' =>
                          (Option.some.inj hc') ▸ hab
        | any =>
            rw [show Reduce.apply .any = Constraint.anyReduce from rfl] at h1
            simp only [Constraint.anyReduce] at h1
            split at h1
            · cases h1
            · rename_i heq
              injection h1 with h1
              subst h1
              split at heq
              · injection heq with heq
                refine .tree n .any w (mergeConstraints_narrowed ?_)
                rw [← heq]
                exact forall2_map_right Prod.fst hlist
              · cases heq
            · cases h1
      · cases h

theorem CTree.checkList_narrows : ∀ (cs : List CTree) (item : Item),
    List.Forall₂ (fun c (rr : Option CTree × List ProcessList) =>
      ∀ c', rr.1 = some c' → Narrowed c c') cs (CTree.checkAndSetList cs item)
  | [], _ => .nil
  | c :: cs, item =>
      .cons
        (fun c' h =>
          CTree.check_narrows c item .both c' (c.check_and_set item .both).2
            (by rw [← h]))
        (CTree.checkList_narrows cs item)

end

theorem check_and_set_constraints_fail {a : Assoc} {item : Item}
    (h : (a.constraints.check_and_set item .both).1 = none) :
    Association.check_and_set_constraints a item =
      (none, (a.constraints.check_and_set item .both).2.map
        (fun pl => { items := [pl], rules := [a.asn_rule] }), a) := by
  simp only [Association.check_and_set_constraints, h]

theorem addStep_narrows (ops : AssocOps)
    (hinit : ∀ (b : Assoc) (it : Item), (ops.init_hook b it).constraints = b.constraints)
    (hadd : ∀ (b : Assoc) (it : Item), (ops.addMember b it).constraints = b.constraints)
    (a : Assoc) (item : Item) :
    Narrowed a.constraints ((Association.addStep ops a item).constraints) := by
  unfold Association.addStep
  cases hr : Association.add ops a item true with
  | error e => exact narrowed_refl _
  | ok r =>
      simp only [Association.add, Association.check_and_set_constraints] at hr
      split at hr
      · injection hr with hr
        subst hr
        exact narrowed_refl _
      · simp only [reduceIte] at hr
        cases hm : (a.constraints.check_and_set item .both).1 with
        | some c =>
            rw [hm] at hr
            simp only at hr
            injection hr with hr
            subst hr
            simp only
            rw [hadd]
            split
            · rw [show ∀ b : Assoc, ({ b with run_init_hook := false } : Assoc).constraints
                  = b.constraints from fun _ => rfl, hinit]
              exact CTree.check_narrows _ item .both c _ (by rw [← hm])
            · exact CTree.check_narrows _ item .both c _ (by rw [← hm])
        | none =>
            rw [hm] at hr
            simp only at hr
            injection hr with hr
            subst hr
            exact narrowed_refl _

theorem foldl_addStep_narrows (ops : AssocOps)
    (hinit : ∀ (b : Assoc) (it : Item), (ops.init_hook b it).constraints = b.constraints)
    (hadd : ∀ (b : Assoc) (it : Item), (ops.addMember b it).constraints = b.constraints) :
    ∀ (items : List Item) (a : Assoc),
    Narrowed a.constraints ((items.foldl (Association.addStep ops) a).constraints)
  | [], _ => narrowed_refl _
  | it :: items, a =>
      narrowed_trans _ _ _ (addStep_narrows ops hinit hadd a it)
        (foldl_addStep_narrows ops hinit hadd items (Association.addStep ops a it))

theorem add_of_member (ops : AssocOps) (a : Assoc) (item : Item) (cc : Bool)
    (hmem : ops.is_item_member a item = true) :
    Association.add ops a item cc = .ok (none, [], a) := by
  simp [Association.add, hmem]

theorem add_success_member {b b' : Assoc} {item : Item} {c : CTree}
    {r : List AssnProcessList}
    (h : Association.add memberOps b item true = .ok (some c, r, b')) :
    memberOps.is_item_member b' item = true := by
  simp only [Association.add, Association.check_and_set_constraints] at h
  split at h
  · injection h with h
    rw [Prod.mk.injEq] at h
    obtain ⟨h1, -⟩ := h
    cases h1
  · simp only [reduceIte] at h
    cases hm : (b.constraints.check_and_set item .both).1 with
    | some c0 =>
        rw [hm] at h
        simp only at h
        injection h with h
        rw [Prod.mk.injEq] at h
        obtain ⟨-, h⟩ := h
        rw [Prod.mk.injEq] at h
        obtain ⟨-, h⟩ := h
        rw [← h]
        simp [memberOps]
    | none =>
        rw [hm] at h
        simp only at h
        injection h with h
        rw [Prod.mk.injEq] at h
        obtain ⟨h1, -⟩ := h
        cases h1

theorem add_fail_unchanged {ops : AssocOps} {a : Assoc} {item : Item}
    {rep : List AssnProcessList} {a' : Assoc}
    (h : Association.add ops a item true = .ok (none, rep, a')) : a' = a := by
  simp only [Association.add, Association.check_and_set_constraints] at h
  split at h
  · injection h with h
    rw [Prod.mk.injEq] at h
    obtain ⟨-, h⟩ := h
    rw [Prod.mk.injEq] at h
    exact h.2.symm
  · simp only [reduceIte] at h
    cases hm : (a.constraints.check_and_set item .both).1 with
    | some c =>
        rw [hm] at h
        simp only at h
        injection h with h
        rw [Prod.mk.injEq] at h
        obtain ⟨h1, -⟩ := h
        cases h1
    | none =>
        rw [hm] at h
        simp only at h
        injection h with h
        rw [Prod.mk.injEq] at h
        obtain ⟨-, h⟩ := h
        rw [Prod.mk.injEq] at h
        exact h.2.symm

/-! Claim theorems. -/

/-- C1 counterexample: in `exAllTree` (reduce=ALL) the first child fails with
an empty reprocess list while the second child also fails but carries a
non-empty reprocess list; contrary to the claim, the tree's `check_and_set`
returns the empty reprocess list, not the failing child's non-empty one. -/
theorem c1_counterexample :
    CTree.check_and_set exAllTree exItem .both = (none, []) ∧
    (CTree.check_and_set exFailEmpty exItem .both).1 = none ∧
    (CTree.check_and_set exFailReproc exItem .both).1 = none ∧
    (CTree.check_and_set exFailReproc exItem .both).2 =
      [{ items := [exItem], work_over := .both, rules := [],
         only_on_match := false }] :=
  ⟨rfl, rfl, rfl, rfl⟩

/-- C1 (amended): for a permitted-scope ALL-reduction tree with a failing
child, the overall result is a failure whose reprocess list is the first
failing child's list when every failing child carries a non-empty reprocess
list; but as soon as any failing child carries an empty reprocess list (the
scan stops at the first such child), the returned reprocess list is empty. -/
theorem c1_amended (n : Option String) (w : WorkOver) (cs : List CTree)
    (item : Item) (wo : WorkOver) (hscope : wo = w ∨ wo = .both) :
    ((∀ e ∈ CTree.checkAndSetList cs item, e.1 = none → e.2 ≠ []) →
      ∀ e₀, (CTree.checkAndSetList cs item).find? (fun e => e.1.isNone) = some e₀ →
        CTree.check_and_set (.tree n .all w cs) item wo = (none, e₀.2)) ∧
    ((∃ e ∈ CTree.checkAndSetList cs item, e.1 = none ∧ e.2 = []) →
      CTree.check_and_set (.tree n .all w cs) item wo = (none, [])) := by
  constructor
  · intro hne e₀ hf
    have hred := allReduce_fail_first hne hf
    simp only [CTree.check_and_set, if_pos hscope]
    rw [show Reduce.apply .all = Constraint.allReduce from rfl, hred]
    simp [treeReduceResult]
  · intro hex
    have hred := allReduce_fail_empty hex
    simp only [CTree.check_and_set, if_pos hscope]
    rw [show Reduce.apply .all = Constraint.allReduce from rfl, hred]
    simp [treeReduceResult]

/-- C1 witness: a single failing child with a non-empty reprocess list — the
tree surfaces exactly that list. -/
theorem c1_amended_witness :
    CTree.check_and_set (.tree none .all .both [exFailReproc]) exItem .both =
      (none, [{ items := [exItem], work_over := .both, rules := [],
                only_on_match := false }]) := by
  refine (c1_amended none .both [exFailReproc] exItem .both (Or.inr rfl)).1 ?_ _ rfl
  intro e he _
  rw [show CTree.checkAndSetList [exFailReproc] exItem =
    [(none, [{ items := [exItem], work_over := .both, rules := [],
               only_on_match := false }])] from rfl] at he
  rcases List.mem_singleton.mp he with rfl
  simp

/-- C6: for a permitted scope, a constraint tree's result is the configured
reduction applied to the full list of all children's results (each child
invoked with BOTH), and the instrumented evaluator — which agrees with
`check_and_set` — visits exactly the tree's leaf list, independent of any
child's outcome: every child is evaluated exactly once, with no
short-circuiting. -/
theorem c6 (n : Option String) (red : Reduce) (w : WorkOver) (cs : List CTree)
    (item : Item) (wo : WorkOver) (hscope : wo = w ∨ wo = .both) :
    CTree.check_and_set (.tree n red w cs) item wo =
      treeReduceResult n red w cs
        (red.apply (cs.map (fun c => c.check_and_set item .both))) ∧
    ((CTree.tree n red w cs).checkAndSetTr item wo).1 =
      CTree.check_and_set (.tree n red w cs) item wo ∧
    ((CTree.tree n red w cs).checkAndSetTr item wo).2 = CTree.leavesList cs := by
  refine ⟨?_, checkAndSetTr_fst _ item wo, ?_⟩
  · simp only [CTree.check_and_set, if_pos hscope, checkAndSetList_eq_map]
  · simp only [CTree.checkAndSetTr, if_pos hscope]
    exact checkAndSetListTr_trace cs item

/-- C6 witness at a concrete one-child tree. -/
theorem c6_witness :
    CTree.check_and_set (.tree none .all .both [.ctrue none]) exItem .both =
      treeReduceResult none .all .both [.ctrue none]
        (Reduce.apply .all
          ([CTree.ctrue none].map (fun c => c.check_and_set exItem .both))) ∧
    ((CTree.tree none .all .both [.ctrue none]).checkAndSetTr exItem .both).1 =
      CTree.check_and_set (.tree none .all .both [.ctrue none]) exItem .both ∧
    ((CTree.tree none .all .both [.ctrue none]).checkAndSetTr exItem .both).2 =
      CTree.leavesList [.ctrue none] :=
  c6 none .all .both [.ctrue none] exItem .both (Or.inr rfl)

/-- C10: a tree configured with `work_over=BOTH` and invoked with EXISTING or
RULES fails the scope check — it returns `(False, [])` and evaluates no
child (the instrumented trace is empty): only a BOTH invocation passes a
BOTH-configured tree. -/
theorem c10 (n : Option String) (red : Reduce) (cs : List CTree) (item : Item) :
    CTree.check_and_set (.tree n red .both cs) item .existing = (none, []) ∧
    CTree.check_and_set (.tree n red .both cs) item .rules = (none, []) ∧
    ((CTree.tree n red .both cs).checkAndSetTr item .existing).2 = [] ∧
    ((CTree.tree n red .both cs).checkAndSetTr item .rules).2 = [] := by
  refine ⟨?_, ?_, ?_, ?_⟩ <;> simp [CTree.check_and_set, CTree.checkAndSetTr]

/-- C2 counterexample: for an association that already holds `exItem` as a
member, `add(exItem)` returns the non-matching pair `(False, [])` — not the
successful (matching) result the claim asserts (the no-op part does hold:
the state is returned unchanged, so no init hook runs and no member is
appended). -/
theorem c2_counterexample :
    memberOps.is_item_member exMemberAssoc exItem = true ∧
    Association.add memberOps exMemberAssoc exItem true =
      .ok (none, [], exMemberAssoc) :=
  ⟨rfl, rfl⟩

/-- C2 (amended): for an item already a member, `add` is an idempotent no-op
returning the non-matching pair `(False, [])`: it runs no init hook, appends
no member, and returns the association unchanged.  Consequently, for the
member-comparing subclass operations, an `add` repeated after a successful
`add` of the same item leaves the association — hence the member list —
exactly as the first `add` produced it. -/
theorem c2_amended (ops : AssocOps) (a : Assoc) (item : Item) (cc : Bool)
    (hmem : ops.is_item_member a item = true) :
    Association.add ops a item cc = .ok (none, [], a) ∧
    (∀ (b b' : Assoc) (c : CTree) (r : List AssnProcessList),
      Association.add memberOps b item true = .ok (some c, r, b') →
      Association.add memberOps b' item true = .ok (none, [], b')) :=
  ⟨add_of_member ops a item cc hmem,
   fun _ b' _ _ h => add_of_member memberOps b' item true (add_success_member h)⟩

/-- C2 witness at the concrete member-holding association. -/
theorem c2_amended_witness :
    Association.add memberOps exMemberAssoc exItem false =
      .ok (none, [], exMemberAssoc) :=
  (c2_amended memberOps exMemberAssoc exItem false rfl).1

/-- C4: failure atomicity — an `add` whose top-level match fails returns the
association state entirely unchanged (member data, init-hook flag and stored
constraint tree included), and `create` on a failed top-level match returns
`(None, reprocess)`, persisting nothing. -/
theorem c4 (ops : AssocOps) (a fresh : Assoc) (item : Item) :
    (∀ (rep : List AssnProcessList) (a' : Assoc),
      Association.add ops a item true = .ok (none, rep, a') → a' = a) ∧
    (∀ (rep : List AssnProcessList) (a' : Assoc),
      Association.add ops fresh item true = .ok (none, rep, a') →
      Association.create ops fresh item = .ok (none, rep)) := by
  constructor
  · intro rep a' h
    exact add_fail_unchanged h
  · intro rep a' h
    simp [Association.create, h]

/-- C4 witness: the concrete failing association. -/
theorem c4_witness :
    exFailAssoc = exFailAssoc ∧
    Association.create memberOps exFailAssoc exItem = .ok (none, []) :=
  ⟨(c4 memberOps exFailAssoc exFailAssoc exItem).1 [] exFailAssoc rfl,
   (c4 memberOps exFailAssoc exFailAssoc exItem).2 [] exFailAssoc rfl⟩

/-- C9: for an item not already a member, `add(item, check_constraints=False)`
raises the unbound-local error (`matching_constraint` is read without ever
being assigned) before any member is added: the documented "just add it"
path is unreachable. -/
theorem c9 (ops : AssocOps) (a : Assoc) (item : Item)
    (h : ops.is_item_member a item = false) :
    Association.add ops a item false = .error .unboundLocalMatchingConstraint := by
  simp [Association.add, h]

/-- C9 witness at a concrete non-member item. -/
theorem c9_witness :
    Association.add memberOps exTrueAssoc exItem false =
      .error .unboundLocalMatchingConstraint :=
  c9 memberOps exTrueAssoc exItem rfl

/-- C7: across any driving sequence of `add` calls, the stored constraint
tree only narrows: between any two prefix points of the item sequence the
stored trees are related by `Narrowed`, i.e. every attribute leaf's
`found_values` set is non-shrinking and a leaf whose `force_unique` lock has
been consumed keeps its `value`, `sources` and `force_unique` unchanged —
provided the subclass init hook and `_add` leave the stored tree alone (as in
the source, where they only manage member data). -/
theorem c7 (ops : AssocOps)
    (hinit : ∀ (b : Assoc) (it : Item), (ops.init_hook b it).constraints = b.constraints)
    (hadd : ∀ (b : Assoc) (it : Item), (ops.addMember b it).constraints = b.constraints)
    (a : Assoc) (pre suf : List Item) :
    Narrowed ((pre.foldl (Association.addStep ops) a).constraints)
      (((pre ++ suf).foldl (Association.addStep ops) a).constraints) := by
  rw [List.foldl_append]
  exact foldl_addStep_narrows ops hinit hadd suf _

/-- C7 witness at the concrete member-list operations. -/
theorem c7_witness :
    Narrowed (([exItem].foldl (Association.addStep memberOps) exTrueAssoc).constraints)
      ((([exItem] ++ [exItem, exItem]).foldl (Association.addStep memberOps)
        exTrueAssoc).constraints) :=
  c7 memberOps (fun _ _ => rfl) (fun _ _ => rfl) exTrueAssoc [exItem] [exItem, exItem]

/-- C3 counterexample: `exNoLock` has an unset pattern (`value=None`) and
`force_unique=False`; on a matching item the escaped value is recorded in
`found_values`, but the pattern stays `None` and the sources are not
narrowed — the source locks only under `force_unique`
(`constraint.py:413-416`), not when the pattern was merely unset. -/
theorem c3_counterexample :
    (AttrConstraint.check_and_set exNoLock exItem).1 =
      some { exNoLock with found_values := ["nircam"] } ∧
    exNoLock.value = none ∧
    ((AttrConstraint.check_and_set exNoLock exItem).1.map AttrConstraint.value) =
      some none ∧
    ((AttrConstraint.check_and_set exNoLock exItem).1.map AttrConstraint.sources) =
      some ["instrument"] :=
  ⟨rfl, rfl, rfl, rfl⟩

/-- C3 (amended): when `check_and_set` matches an item's value, the
regex-escaped value is added to `found_values`; if `force_unique` is set —
and only then — the pattern is locked to the escaped value, the sources are
narrowed to the single supplying attribute, and `force_unique` is consumed;
without `force_unique` the pattern and sources are unchanged even when the
pattern was unset. -/
theorem c3_amended (c : AttrConstraint) (item : Item) (source value : String)
    (h1 : c.onlyif item = true)
    (h2 : getattr_from_list item c.sources c.invalid_values = some (source, value))
    (h3 : c.force_undefined = false)
    (h4 : c.evaluate = true → evalMulti value = none)
    (h5 : ∀ pat, c.value = some pat → meets_conditions value pat = true) :
    ∃ c', c.check_and_set item = (some c', []) ∧
      reEscape value ∈ c'.found_values ∧
      (∀ v ∈ c.found_values, v ∈ c'.found_values) ∧
      (c.force_unique = true →
        c'.value = some (reEscape value) ∧ c'.sources = [source] ∧
        c'.force_unique = false) ∧
      (c.force_unique = false →
        c'.value = c.value ∧ c'.sources = c.sources ∧
        c'.force_unique = false) := by
  have hml : (if c.evaluate then evalMulti value else none) = none := by
    cases he : c.evaluate
    · simp
    · simp [h4 he]
  have hpassed : (match c.value with
      | some pat => meets_conditions value pat
      | none => true) = true := by
    cases hv : c.value with
    | none => rfl
    | some pat => exact h5 pat hv
  cases hfu : c.force_unique with
  | true =>
      refine ⟨{ c with
          value := some (reEscape value)
          sources := [source]
          force_unique := false
          found_values := c.found_values.insert (reEscape value) },
        ?_, ?_, ?_, fun _ => ⟨rfl, rfl, rfl⟩, fun hf => Bool.noConfusion hf⟩
      · simp only [AttrConstraint.check_and_set, h1, h2, h3, hml, hpassed, hfu]
        simp
      · simp [List.mem_insert_iff]
      · intro v hv
        simp [List.mem_insert_iff, hv]
  | false =>
      refine ⟨{ c with found_values := c.found_values.insert (reEscape value) },
        ?_, ?_, ?_, fun hf => Bool.noConfusion hf,
        fun _ => ⟨rfl, rfl, hfu⟩⟩
      · simp only [AttrConstraint.check_and_set, h1, h2, h3, hml, hpassed, hfu]
        simp
      · simp [List.mem_insert_iff]
      · intro v hv
        simp [List.mem_insert_iff, hv]

/-- C3 witness: an unset-pattern, `force_unique` constraint locks onto the
first matching value. -/
theorem c3_amended_witness :
    ∃ c', AttrConstraint.check_and_set
        { sources := ["filter"] } [("filter", "F200W")] = (some c', []) ∧
      reEscape "F200W" ∈ c'.found_values ∧
      (∀ v ∈ ({ sources := ["filter"] } : AttrConstraint).found_values,
        v ∈ c'.found_values) ∧
      (({ sources := ["filter"] } : AttrConstraint).force_unique = true →
        c'.value = some (reEscape "F200W") ∧ c'.sources = ["filter"] ∧
        c'.force_unique = false) ∧
      (({ sources := ["filter"] } : AttrConstraint).force_unique = false →
        c'.value = ({ sources := ["filter"] } : AttrConstraint).value ∧
        c'.sources = ({ sources := ["filter"] } : AttrConstraint).sources ∧
        c'.force_unique = false) :=
  c3_amended { sources := ["filter"] } [("filter", "F200W")] "filter" "F200W"
    rfl rfl rfl (fun h => by cases h) (fun _ hp => by cases hp)

/-- C5: with `evaluate` set and the found attribute value evaluating to a
multi-valued list of n values, `check_and_set` reports failure and its
reprocess list holds one ProcessList whose items are exactly the n
synthesized copies of the item — the i-th identical to `item` at every
attribute except the source attribute, which carries the i-th value, in the
list's original order. -/
theorem c5 (c : AttrConstraint) (item : Item) (source value : String)
    (vs : List String)
    (h1 : c.onlyif item = true)
    (h2 : getattr_from_list item c.sources c.invalid_values = some (source, value))
    (h3 : c.force_undefined = false)
    (h4 : c.evaluate = true)
    (h5 : evalMulti value = some vs) :
    c.check_and_set item =
      (none, [{ items := vs.map (fun v => item.set source v), work_over := .both,
                rules := [], only_on_match := false }]) ∧
    (vs.map (fun v => item.set source v)).length = vs.length ∧
    (∀ (i : Nat) (hi : i < vs.length) (a : String),
      Item.get ((vs.map (fun v => item.set source v)).get ⟨i, by simpa using hi⟩) a =
        if a = source then some (vs.get ⟨i, hi⟩) else item.get a) := by
  refine ⟨?_, by simp, ?_⟩
  · simp only [AttrConstraint.check_and_set, h1, h2, h3, h4, h5]
    simp
  · intro i hi a
    simp only [List.get_eq_getElem, List.getElem_map]
    exact Item.get_set item source (vs.get ⟨i, hi⟩) a

/-- C5 witness: a three-valued delimited attribute yields exactly three
synthesized items. -/
theorem c5_witness :
    AttrConstraint.check_and_set { sources := ["exp"], evaluate := true }
        [("exp", "[a, b, c]")] =
      (none, [{ items := (["a", "b", "c"].map
                  (fun v => Item.set [("exp", "[a, b, c]")] "exp" v)),
                work_over := .both, rules := [], only_on_match := false }]) ∧
    ((["a", "b", "c"].map
      (fun v => Item.set [("exp", "[a, b, c]")] "exp" v)).length = 3) ∧
    (∀ (i : Nat) (hi : i < (["a", "b", "c"] : List String).length) (a : String),
      Item.get (((["a", "b", "c"] : List String).map
          (fun v => Item.set [("exp", "[a, b, c]")] "exp" v)).get
            ⟨i, by simpa using hi⟩) a =
        if a = "exp" then some ((["a", "b", "c"] : List String).get ⟨i, hi⟩)
        else Item.get [("exp", "[a, b, c]")] a) :=
  c5 { sources := ["exp"], evaluate := true } [("exp", "[a, b, c]")]
    "exp" "[a, b, c]" ["a", "b", "c"] rfl rfl rfl rfl (by decide)

theorem matchLoop_eq (item : Item) (al ig : List Nat) :
    ∀ reg : List (String × RegRule),
    matchLoop item al ig reg =
      collectCreates item ((reg.filter (fun p : String × RegRule =>
        p.2.rid ∉ ig ∧ p.2.rid ∈ al)).map (fun p => p.2))
  | [] => rfl
  | (nm, rule) :: rest => by
      by_cases h : rule.rid ∉ ig ∧ rule.rid ∈ al
      · rw [List.filter_cons_of_pos (by simpa using h)]
        simp only [matchLoop, if_pos h, List.map_cons, collectCreates]
        rw [matchLoop_eq item al ig rest]
      · rw [List.filter_cons_of_neg (by simpa using h)]
        simp only [matchLoop, if_neg h]
        exact matchLoop_eq item al ig rest

/-- C8: `Registry.match` never attempts an ignored rule's `create`, and more
generally attempts `rule.create(item)` exactly for the registry rules passing
the allow/ignore filters (the full rule set when `allow` is `None`),
collecting every created association and concatenating every returned
reprocess list in registry order. -/
theorem c8 (reg : List (String × RegRule)) (item : Item)
    (allow ignore : Option (List Nat)) (R : RegRule)
    (hR : R.rid ∈ ignoreList ignore) :
    R.rid ∉ matchAttempted reg allow ignore ∧
    AssociationRegistry.match reg item allow ignore =
      collectCreates item
        ((reg.filter (fun p : String × RegRule =>
          p.2.rid ∉ ignoreList ignore ∧ p.2.rid ∈ allowList reg allow)).map
          (fun p => p.2)) := by
  constructor
  · intro hmem
    simp only [matchAttempted] at hmem
    rw [List.mem_map] at hmem
    obtain ⟨p, hp, hrid⟩ := hmem
    rw [List.mem_filter] at hp
    have hcond := of_decide_eq_true hp.2
    exact hcond.1 (by rw [hrid]; exact hR)
  · simp only [AssociationRegistry.match]
    exact matchLoop_eq item (allowList reg allow) (ignoreList ignore) reg

/-- C8 witness: rule 0 is ignored in the two-rule registry. -/
theorem c8_witness :
    exRuleA.rid ∉ matchAttempted exRegistry none (some [0]) ∧
    AssociationRegistry.match exRegistry exItem none (some [0]) =
      collectCreates exItem
        ((exRegistry.filter (fun p : String × RegRule =>
          p.2.rid ∉ ignoreList (some [0]) ∧
          p.2.rid ∈ allowList exRegistry none)).map (fun p => p.2)) :=
  c8 exRegistry exItem none (some [0]) exRuleA (by simp [ignoreList, exRuleA])

end JwstAssoc
